import Mathlib

/-!
Verification development for the `edn` reader (package `edn`, file `reader.go`).

The reader is shallowly embedded: the byte stream is a `List Char` (the
reader consumes ASCII bytes; each `Char` models one byte), fallible reads
return `Except ReadErr`, and the mutually recursive descent of the Go code
is modelled with an explicit fuel parameter (the Go code recurses without a
bound; fuel is an embedding artifact, and general theorems quantify over it).
Go's `io.ByteScanner` (`ReadByte`/`UnreadByte`) is modelled by list pattern
matching: an `UnreadByte` immediately after `ReadByte` of `c` corresponds to
re-using `c :: rest`.
-/

namespace Edn

/-- The distinguished characters `"`, `\` and the single quote, named so the
development does not depend on escape conventions inside literals. -/
def dq : Char := Char.ofNat 34

def bs : Char := Char.ofNat 92

def sq : Char := Char.ofNat 39

/-- Backspace (0x08), form feed (0x0c), carriage return (0x0d). -/
def bsp : Char := Char.ofNat 8

def ff : Char := Char.ofNat 12

def cr : Char := Char.ofNat 13

/-- `isWhitespace` from reader.go: space, newline and comma. -/
def isWs (c : Char) : Bool := c == ' ' || c == '\n' || c == ','

/-- `isDigit` from reader.go: the ten ASCII digits. -/
def isDigitB (c : Char) : Bool := '0' ≤ c && c ≤ '9'

/-- `nonConstituent` from reader.go. -/
def nonConstituent (c : Char) : Bool := c == '@' || c == '`' || c == '~'

/-- The errors the reader can signal.  `eof` is Go's `io.EOF`, which the
entry points treat distinctly; every other constructor corresponds to one
`fmt.Errorf` site in reader.go.  `outOfFuel` is an embedding artifact. -/
inductive ReadErr where
  | eof
  | outOfFuel
  | wsEof
  | handlerErr (ch : Char) (e : ReadErr)
  | notImplementedFor (ch : Char)
  | unmatchedDelim (ch : Char)
  | eofDispatch
  | eofReaderTag
  | eofTaggedValue
  | tagNotSymbol
  | eofString
  | unicodeEscape
  | octalEscape
  | badEscape (ch : Char)
  | eofVector
  | vecWsEof
  | eofComment
  | mapOdd
  | invalidToken (s : String)
  | invalidConstituent (ch : Char)
  | invalidNumber
  | bigIntBase
  | parseIntErr
  | sscanErr
  | arbPrecFloat
  | instNotString
  | instBadTime
  | uuidNotString
  | uuidLength
  | uuidHex
  deriving Repr, DecidableEq

/-- The values the reader produces (the Go code uses plain `interface{}`
values; this is the closed set it actually constructs).  Floats are carried
as the exact rational value denoted by the literal: Go's
`strconv.ParseFloat` rounds that exact decimal to the nearest IEEE-754
double, a conversion external to this repository (math library), so the
embedding keeps the exact value.  Maps and sets are association lists /
lists with Go's insertion semantics (Go's iteration order is irrelevant to
the claims, which compare whole decoded values on concrete inputs). -/
inductive Value where
  | nil
  | bool (b : Bool)
  | int (i : Int)
  | bigint (i : Int)
  | float (q : Rat)
  | ratio (q : Rat)
  | str (s : String)
  | sym (ns name : String)
  | kw (ns name : String)
  | vec (l : List Value)
  | list (l : List Value)
  | map (l : List (Value × Value))
  | set (l : List Value)
  | instant (s : String)
  | uuid (msb lsb : Nat)
  | tagged (ns name : String) (v : Value)

mutual

/-- Go's `==` on the `interface{}` values the reader produces (used for
map keys and set membership).  Most variants are Go value types and
compare by value; big integers and ratios, however, are `*big.Int` /
`*big.Rat` pointers, and the reader allocates a fresh one for every
parsed literal (`&big.Int{}`, `new(big.Int)`, `new(big.Rat)`), so two
big-integer or ratio keys occurring in one decoded literal are never
`==` in Go even when numerically equal — hence `false` for those
variants.  (Slices and maps as Go map keys would panic at runtime; no
decoded input in this development compares them.) -/
def beqValue : Value → Value → Bool
  | .nil, .nil => true
  | .bool a, .bool b => a == b
  | .int a, .int b => a == b
  | .bigint _, .bigint _ => false
  | .float a, .float b => a == b
  | .ratio _, .ratio _ => false
  | .str a, .str b => a == b
  | .sym a b, .sym c d => a == c && b == d
  | .kw a b, .kw c d => a == c && b == d
  | .vec a, .vec b => beqValues a b
  | .list a, .list b => beqValues a b
  | .map a, .map b => beqPairs a b
  | .set a, .set b => beqValues a b
  | .instant a, .instant b => a == b
  | .uuid a b, .uuid c d => a == c && b == d
  | .tagged a b v, .tagged c d w => a == c && b == d && beqValue v w
  | _, _ => false

/-- Equality on value lists (elementwise `beqValue`). -/
def beqValues : List Value → List Value → Bool
  | [], [] => true
  | a :: as_, b :: bs_ => beqValue a b && beqValues as_ bs_
  | _, _ => false

/-- Equality on key/value pair lists. -/
def beqPairs : List (Value × Value) → List (Value × Value) → Bool
  | [], [] => true
  | (k, v) :: as_, (k2, v2) :: bs_ => beqValue k k2 && beqValue v v2 && beqPairs as_ bs_
  | _, _ => false

end

/-! ## Number grammar (`intPattern`, `floatPattern`, `ratioPattern`, `matchNumber`) -/

/-- Character class `[0-9A-Fa-f]` of `intPattern`. -/
def isHexChar (c : Char) : Bool :=
  isDigitB c || ('a' ≤ c && c ≤ 'f') || ('A' ≤ c && c ≤ 'F')

/-- Character class `[0-7]` of `intPattern`. -/
def isOctChar (c : Char) : Bool := '0' ≤ c && c ≤ '7'

/-- Character class `[0-9A-Za-z]` of `intPattern`. -/
def isAlnumChar (c : Char) : Bool :=
  isDigitB c || ('a' ≤ c && c ≤ 'z') || ('A' ≤ c && c ≤ 'Z')

/-- Character class `[1-9]`. -/
def isDigit19 (c : Char) : Bool := '1' ≤ c && c ≤ '9'

/-- The digit run of one `intPattern` alternative followed by the trailing
`(N)?$`: the digits must be drawn from class `p` (which never contains
`N`, except for the custom-radix class where the regex engine's lazy `+?`
gives the same splitting), so the string matches exactly when it is a
nonempty `p`-run, optionally split as a nonempty `p`-run followed by a
final `N`.  Returns the digit run and whether `N` was present. -/
def stripN (p : Char → Bool) (u : List Char) : Option (List Char × Bool) :=
  if u.getLast? == some 'N' && !u.dropLast.isEmpty && u.dropLast.all p then
    some (u.dropLast, true)
  else if !u.isEmpty && u.all p then
    some (u, false)
  else none

/-- The mutually exclusive alternatives of `intPattern`'s central group:
`0x`+hex (group 2), `0`+octal (group 3), radix`r`digits (groups 4, 5),
a nonzero decimal run (group 6), or the bare literal `0` (group 7). -/
inductive IntAlt where
  | hex (d : List Char)
  | oct (d : List Char)
  | radix (r d : List Char)
  | dec (d : List Char)
  | zero
  deriving Repr, DecidableEq

/-- A successful match of `intPattern`: the sign group and the alternative,
plus whether the trailing `N` (group 8) matched. -/
structure IntMatch where
  neg : Bool
  alt : IntAlt
  big : Bool
  deriving Repr, DecidableEq

/-- The alternatives of `intPattern` after the sign, tried in the regex's
alternation order.  Each alternative's internal backtracking against the
trailing `(N)?$` is captured by `stripN`; when an alternative's lead
matches but its digits fail, no later alternative can match the same
string (their leads are mutually exclusive), so returning `none` is
faithful to the regex. -/
def matchIntAlts (t : List Char) : Option (IntAlt × Bool) :=
  match t with
  | '0' :: 'x' :: u => (stripN isHexChar u).map fun (d, b) => (.hex d, b)
  | '0' :: 'X' :: u => (stripN isHexChar u).map fun (d, b) => (.hex d, b)
  | '0' :: u =>
    match stripN isOctChar u with
    | some (d, b) => some (.oct d, b)
    | none =>
      match u with
      | [] => some (.zero, false)
      | ['N'] => some (.zero, true)
      | _ => none
  | c :: c2 :: rr :: u =>
    if isDigit19 c && isDigitB c2 && (rr == 'r' || rr == 'R') then
      (stripN isAlnumChar u).map fun (d, b) => (.radix [c, c2] d, b)
    else if isDigit19 c && (c2 == 'r' || c2 == 'R') then
      (stripN isAlnumChar (rr :: u)).map fun (d, b) => (.radix [c] d, b)
    else if isDigit19 c then
      (stripN isDigitB (c :: c2 :: rr :: u)).map fun (d, b) => (.dec d, b)
    else none
  | [c, c2] =>
    if isDigit19 c then
      if c2 == 'r' || c2 == 'R' then none
      else (stripN isDigitB [c, c2]).map fun (d, b) => (.dec d, b)
    else none
  | [c] =>
    if isDigit19 c then (stripN isDigitB [c]).map fun (d, b) => (.dec d, b)
    else none
  | [] => none

/-- Anchored match of `intPattern` against the whole string: optional sign,
then the alternatives. -/
def matchIntPattern (s : List Char) : Option IntMatch :=
  match s with
  | '-' :: t => (matchIntAlts t).map fun (a, b) => ⟨true, a, b⟩
  | '+' :: t => (matchIntAlts t).map fun (a, b) => ⟨false, a, b⟩
  | t => (matchIntAlts t).map fun (a, b) => ⟨false, a, b⟩

/-- Go digit values as used by `strconv.ParseInt`: `0`-`9`, `a`-`z`,
`A`-`Z`. -/
def digitVal? (c : Char) : Option Nat :=
  if isDigitB c then some (c.toNat - 48)
  else if 'a' ≤ c && c ≤ 'z' then some (c.toNat - 97 + 10)
  else if 'A' ≤ c && c ≤ 'Z' then some (c.toNat - 65 + 10)
  else none

/-- Value of a digit run in a base (digits assumed valid). -/
def natVal (b : Nat) (l : List Char) : Nat :=
  l.foldl (fun acc c => acc * b + ((digitVal? c).getD 0)) 0

/-- `strconv.ParseInt(n, base, 64)` on a sign-free digit string: the base
must lie in 2..36, every digit must be valid in the base, and the value
must fit a signed 64-bit integer. -/
def parseIntGo (base : Nat) (d : List Char) : Except ReadErr Nat :=
  if base < 2 || 36 < base then .error .parseIntErr
  else if d.isEmpty then .error .parseIntErr
  else if d.all (fun c => match digitVal? c with | some v => v < base | none => false) then
    let n := natVal base d
    if n ≤ 9223372036854775807 then .ok n else .error .parseIntErr
  else .error .parseIntErr

/-- `strconv.Atoi` on the (1- or 2-digit) radix group: plain base-10. -/
def atoiRadix (d : List Char) : Nat := natVal 10 d

/-- `fmt.Sscan` of a base-prefixed digit string into a `big.Int`: the
base-0 scanner of `math/big` consumes the prefix, then a maximal run of
digits valid in the base; it fails only when that run is empty, and
ignores trailing bytes (`fmt.Sscan` stops after one operand). -/
def sscanBigInt (base : Nat) (d : List Char) : Except ReadErr Int :=
  let valid := d.takeWhile fun c => match digitVal? c with | some v => v < base | none => false
  if valid.isEmpty then .error .sscanErr
  else .ok (natVal base valid)

/-- The arbitrary-precision branch of `matchNumber`: only bases 2, 8, 10
and 16 have a prefix spelling, all other radices are rejected.  The sign is
not consulted in this branch (matching the Go code, which only applies
`negate` in the fixed-width branch). -/
def bigIntBranch (radix : Nat) (d : List Char) : Except ReadErr Value :=
  if radix == 16 then (sscanBigInt 16 d).map .bigint
  else if radix == 10 then (sscanBigInt 10 d).map .bigint
  else if radix == 8 then (sscanBigInt 8 d).map .bigint
  else if radix == 2 then (sscanBigInt 2 d).map .bigint
  else .error .bigIntBase

/-- A successful match of `floatPattern`: sign, integer digits, the
optional fractional digits (possibly an empty run, per `[0-9]*`), the
optional exponent, and whether the trailing `M` matched. -/
structure FloatMatch where
  neg : Bool
  intD : List Char
  frac : Option (List Char)
  exp : Option (Bool × List Char)
  bigM : Bool
  deriving Repr, DecidableEq

/-- The `[eE][-+]?[0-9]+` suffix of `floatPattern` followed by `(M)?$`:
returns the exponent sign, its digits, and whether `M` matched. -/
def matchFloatExp (r : List Char) : Option (Bool × List Char × Bool) :=
  let (eneg, r1) :=
    match r with
    | '-' :: r1 => (true, r1)
    | '+' :: r1 => (false, r1)
    | r1 => (false, r1)
  let ed := r1.takeWhile isDigitB
  if ed.isEmpty then none
  else
    match r1.drop ed.length with
    | [] => some (eneg, ed, false)
    | ['M'] => some (eneg, ed, true)
    | _ => none

/-- Anchored match of `floatPattern`. -/
def matchFloatPattern (s : List Char) : Option FloatMatch :=
  let (neg, t) :=
    match s with
    | '-' :: t => (true, t)
    | '+' :: t => (false, t)
    | t => (false, t)
  let intD := t.takeWhile isDigitB
  if intD.isEmpty then none
  else
    let t1 := t.drop intD.length
    let (frac, t2) :=
      match t1 with
      | '.' :: r => (some (r.takeWhile isDigitB), r.drop (r.takeWhile isDigitB).length)
      | _ => (none, t1)
    match t2 with
    | 'e' :: r => (matchFloatExp r).map fun (eneg, ed, m) => ⟨neg, intD, frac, some (eneg, ed), m⟩
    | 'E' :: r => (matchFloatExp r).map fun (eneg, ed, m) => ⟨neg, intD, frac, some (eneg, ed), m⟩
    | 'M' :: r => if r.isEmpty then some ⟨neg, intD, frac, none, true⟩ else none
    | [] => some ⟨neg, intD, frac, none, false⟩
    | _ => none

/-- The exact rational value a matched float literal denotes.
`strconv.ParseFloat` rounds this value to the nearest IEEE-754 double;
the embedding carries the exact value (see `Value.float`). -/
def floatVal (m : FloatMatch) : Rat :=
  let fr := m.frac.getD []
  let mant : Int := natVal 10 (m.intD ++ fr)
  let e : Int :=
    (match m.exp with
     | some (eneg, ed) => if eneg then -(natVal 10 ed : Int) else (natVal 10 ed : Int)
     | none => 0) - fr.length
  let mag : Rat :=
    if 0 ≤ e then mkRat (mant * (10 : Int) ^ e.toNat) 1
    else mkRat mant ((10 : Nat) ^ (-e).toNat)
  if m.neg then -mag else mag

/-- Anchored match of `ratioPattern`: signed digits, `/`, digits.  Returns
the signed numerator and the denominator. -/
def matchRatioPattern (s : List Char) : Option (Int × Nat) :=
  let (neg, t) :=
    match s with
    | '-' :: t => (true, t)
    | '+' :: t => (false, t)
    | t => (false, t)
  let num := t.takeWhile isDigitB
  if num.isEmpty then none
  else
    match t.drop num.length with
    | '/' :: r =>
      let den := r.takeWhile isDigitB
      if den.isEmpty || !(r.drop den.length).isEmpty then none
      else
        let n : Int := natVal 10 num
        some (if neg then -n else n, natVal 10 den)
    | _ => none

/-- `matchNumber` from reader.go: classify the complete token against the
integer, float and ratio grammars, in that order. -/
def matchNumber (s : List Char) : Except ReadErr Value :=
  match matchIntPattern s with
  | some m =>
    match m.alt with
    | .zero => if m.big then .ok (.bigint 0) else .ok (.int 0)
    | .hex d =>
      if m.big then bigIntBranch 16 d
      else (parseIntGo 16 d).map fun n => .int (if m.neg then -(n : Int) else n)
    | .oct d =>
      if m.big then bigIntBranch 8 d
      else (parseIntGo 8 d).map fun n => .int (if m.neg then -(n : Int) else n)
    | .dec d =>
      if m.big then bigIntBranch 10 d
      else (parseIntGo 10 d).map fun n => .int (if m.neg then -(n : Int) else n)
    | .radix r d =>
      let radix := atoiRadix r
      if m.big then bigIntBranch radix d
      else (parseIntGo radix d).map fun n => .int (if m.neg then -(n : Int) else n)
  | none =>
    match matchFloatPattern s with
    | some fm =>
      if fm.bigM then .error .arbPrecFloat
      else .ok (.float (floatVal fm))
    | none =>
      match matchRatioPattern s with
      | some (n, d) =>
        if d == 0 then .error .sscanErr
        else .ok (.ratio (mkRat n d))
      | none => .error .invalidNumber

/-! ## Symbol / keyword grammar (`symbolPattern`, `matchSymbol`, `interpretToken`) -/

/-- Split a list at its last `/`: returns the front segment including that
`/` and the remainder (which then contains no `/`). -/
def splitLastSlash : List Char → Option (List Char × List Char)
  | [] => none
  | c :: r =>
    match splitLastSlash r with
    | some (a, b) => some (c :: a, b)
    | none => if c == '/' then some (['/'], r) else none

/-- The two capture groups of `symbolPattern` (`[:]?([^/].*/)?(/|[^/]*)`)
at match position 0 on `t` (the token after the optional leading colon),
with Go's leftmost-first greedy semantics: if the first character is `/`
the namespace group is skipped and the name is the single `/` (the match
need not cover the token — the pattern is unanchored); otherwise a greedy
namespace extends to the last `/` when one exists, else the whole token is
the name.  The namespace group keeps its trailing `/`, as in the Go code. -/
def symGroups (t : List Char) : List Char × List Char :=
  match t with
  | [] => ([], [])
  | c :: r =>
    if c == '/' then ([], ['/'])
    else
      match splitLastSlash (c :: r) with
      | some (ns, nm) => (ns, nm)
      | none => ([], c :: r)

/-- Does the list end with `:` followed by `/`? (`strings.HasSuffix(ns, ":/")`). -/
def endsColonSlash (l : List Char) : Bool :=
  match l.reverse with
  | x :: y :: _ => x == '/' && y == ':'
  | _ => false

/-- Does the list end with `:`? (`strings.HasSuffix(ns, ":")`). -/
def endsColon (l : List Char) : Bool :=
  match l.reverse with
  | x :: _ => x == ':'
  | _ => false

/-- Does the list contain the substring `::`? (`strings.Index(s, "::")`). -/
def hasCC : List Char → Bool
  | a :: b :: r => (a == ':' && b == ':') || hasCC (b :: r)
  | _ => false

/-- Does the list start with `::`? (`strings.HasPrefix(s, "::")`). -/
def startsCC (l : List Char) : Bool :=
  match l with
  | a :: b :: _ => a == ':' && b == ':'
  | _ => false

/-- `matchSymbol` from reader.go: run `symbolPattern`, reject namespaces
ending in `:/` or `:` and tokens containing or starting with `::`, strip
the namespace's trailing `/`, and build a `Keyword` when the token starts
with `:`, else a `Symbol`. -/
def matchSymbol (s : List Char) : Option Value :=
  let isKw := s.head? == some ':'
  let t := if isKw then s.tail else s
  let (ns, name) := symGroups t
  if (!ns.isEmpty && endsColonSlash ns) || endsColon ns || hasCC s then none
  else if startsCC s then none
  else
    let ns2 := if !ns.isEmpty then ns.dropLast else ns
    if isKw then some (.kw ⟨ns2⟩ ⟨name⟩) else some (.sym ⟨ns2⟩ ⟨name⟩)

/-- `interpretToken` from reader.go. -/
def interpretToken (tok : List Char) : Except ReadErr Value :=
  if tok == "nil".toList then .ok .nil
  else if tok == "true".toList then .ok (.bool true)
  else if tok == "false".toList then .ok (.bool false)
  else
    match matchSymbol tok with
    | some v => .ok v
    | none => .error (.invalidToken ⟨tok⟩)

/-! ## Macro table and simple (non-recursive) readers -/

/-- The handlers installed in the `macros` table by `init` in reader.go
(one constructor per handler function). -/
inductive HandlerKind where
  | vec
  | list
  | mapK
  | strK
  | comment
  | dispatchK
  | unmatched
  | notImpl
  deriving Repr, DecidableEq

/-- The `macros` table: which handler, if any, is installed for a byte. -/
def handlerFor (c : Char) : Option HandlerKind :=
  if c == '[' then some .vec
  else if c == ']' then some .unmatched
  else if c == '(' then some .list
  else if c == ')' then some .unmatched
  else if c == '{' then some .mapK
  else if c == '}' then some .unmatched
  else if c == dq then some .strK
  else if c == ';' then some .comment
  else if c == '#' then some .dispatchK
  else if c == bs then some .notImpl
  else if c == '^' then some .notImpl
  else none

/-- `isMacro` from reader.go. -/
def isHandlerByte (c : Char) : Bool := (handlerFor c).isSome

/-- `isTerminatingMacro` from reader.go: any macro byte except `#` and the
single quote terminates a token. -/
def isTerminating (c : Char) : Bool := c != '#' && c != sq && isHandlerByte c

/-- What the `dispatch` table holds for the byte after `#`. -/
inductive DispatchKind where
  | setK
  | discard
  | notImpl
  deriving Repr, DecidableEq

/-- The `dispatch` table from `init` in reader.go. -/
def dispatchFor (c : Char) : Option DispatchKind :=
  if c == '^' then some .notImpl
  else if c == '<' then some .notImpl
  else if c == '{' then some .setK
  else if c == '_' then some .discard
  else none

/-- The loop body of `readString` from reader.go: consume bytes until an
unescaped `"`, translating escapes.  The arm for the backspace escape in
the Go source is `case '\b':` — it matches the raw backspace byte 0x08,
not the letter `b`, so an input escape `\b` (backslash, letter b) falls to
the default arm and errors. -/
def readStringAux (acc : List Char) : List Char → Except ReadErr (Value × List Char)
  | [] => .error .eofString
  | c :: r =>
    if c == dq then .ok (.str ⟨acc⟩, r)
    else if c == bs then
      match r with
      | [] => .error .eofString
      | e :: r2 =>
        if e == 't' then readStringAux (acc ++ ['\t']) r2
        else if e == 'r' then readStringAux (acc ++ [cr]) r2
        else if e == 'n' then readStringAux (acc ++ ['\n']) r2
        else if e == bs then readStringAux (acc ++ [bs]) r2
        else if e == dq then readStringAux (acc ++ [dq]) r2
        else if e == bsp then readStringAux (acc ++ [bsp]) r2
        else if e == 'f' then readStringAux (acc ++ [ff]) r2
        else if e == 'u' then
          match r2 with
          | [] => .error .eofString
          | _ :: _ => .error .unicodeEscape
        else if isDigitB e then .error .octalEscape
        else .error (.badEscape e)
    else readStringAux (acc ++ [c]) r

/-- `readString` from reader.go (the opening `"` already consumed). -/
def readStringGo (l : List Char) : Except ReadErr (Value × List Char) :=
  readStringAux [] l

/-- `readComment` from reader.go: consume bytes through the first newline
or carriage return; producing no value is signalled by `none` (the Go code
returns the reader itself as a sentinel). -/
def readCommentGo : List Char → Except ReadErr (Option Value × List Char)
  | [] => .error .eofComment
  | c :: r =>
    if c == '\n' || c == cr then .ok (none, r)
    else readCommentGo r

/-- `readToken` from reader.go: accumulate constituent bytes after the
lead byte until whitespace, a terminating macro byte, or end of input;
the boundary byte stays in the stream. -/
def readTokenAux (acc : List Char) : List Char → Except ReadErr (List Char × List Char)
  | [] => .ok (acc, [])
  | c :: r =>
    if isWs c || isTerminating c then .ok (acc, c :: r)
    else if nonConstituent c then .error (.invalidConstituent c)
    else readTokenAux (acc ++ [c]) r

/-- `readToken` from reader.go, with the already-consumed lead byte. -/
def readTokenGo (ch : Char) (l : List Char) : Except ReadErr (List Char × List Char) :=
  readTokenAux [ch] l

/-- The byte-accumulation loop of `readNumber` from reader.go: extend the
token until whitespace or a macro byte (left in the stream) or EOF. -/
def numTokenAux (acc : List Char) : List Char → List Char × List Char
  | [] => (acc, [])
  | c :: r =>
    if isWs c || isHandlerByte c then (acc, c :: r)
    else numTokenAux (acc ++ [c]) r

/-- `readNumber` from reader.go: accumulate the token starting from the
lead byte, then classify it with `matchNumber`. -/
def readNumberGo (ch : Char) (l : List Char) : Except ReadErr (Value × List Char) :=
  let (tok, rest) := numTokenAux [ch] l
  (matchNumber tok).map fun v => (v, rest)

/-! ## Built-in tag decoders (`readTime`, `readUUID`) -/

/-- Shape of an RFC 3339 timestamp, `time.Parse(time.RFC3339, str)` being
Go standard-library code external to this repository: the date-time
skeleton `dddd-dd-ddTdd:dd:dd` followed by a nonempty zone suffix.  Only
its success/failure split matters to the reader; no claim exercises it. -/
def rfc3339Shape (s : String) : Bool :=
  match s.toList with
  | y1 :: y2 :: y3 :: y4 :: '-' :: m1 :: m2 :: '-' :: d1 :: d2 :: 'T' ::
    h1 :: h2 :: ':' :: n1 :: n2 :: ':' :: s1 :: s2 :: z :: zr =>
    ([y1, y2, y3, y4, m1, m2, d1, d2, h1, h2, n1, n2, s1, s2].all isDigitB)
      && (z == 'Z' || z == '+' || z == '-' || (z == '.' && !zr.isEmpty))
  | _ => false

/-- `readTime` from reader.go: the payload must be a string parsing as an
RFC 3339 timestamp. -/
def readTimeGo (v : Value) : Except ReadErr Value :=
  match v with
  | .str s => if rfc3339Shape s then .ok (.instant s) else .error .instBadTime
  | _ => .error .instNotString

/-- Value of 16 hex digits (`hex.DecodeString` then
`binary.BigEndian.Uint64`), when all are hex digits. -/
def hexNat? (l : List Char) : Option Nat :=
  l.foldl
    (fun acc c =>
      match acc, digitVal? c with
      | some a, some v => if v < 16 then some (a * 16 + v) else none
      | _, _ => none)
    (some 0)

/-- The character selection of `readUUID`:
`str[0:8] + str[9:13] + str[14:18] + str[19:23] + str[24:]` — the
characters at indices 8, 13, 18 and 23 are dropped without being checked
against `-`. -/
def uuidHexChars (d : List Char) : List Char :=
  d.take 8 ++ ((d.drop 9).take 4) ++ ((d.drop 14).take 4)
    ++ ((d.drop 19).take 4) ++ d.drop 24

/-- `readUUID` from reader.go: the payload must be a string of length
exactly 36; the 32 characters outside the separator positions are hex
decoded into a most- and a least-significant 64-bit half. -/
def readUUIDGo (v : Value) : Except ReadErr Value :=
  match v with
  | .str s =>
    let d := s.toList
    if d.length != 36 then .error .uuidLength
    else
      let h := uuidHexChars d
      match hexNat? (h.take 16), hexNat? (h.drop 16) with
      | some msb, some lsb => .ok (.uuid msb lsb)
      | _, _ => .error .uuidHex
  | _ => .error .uuidNotString

/-- The `tagged` registry from `init` in reader.go: `inst` and `uuid`,
keyed by symbol. -/
def taggedFor (ns name : String) : Option (Value → Except ReadErr Value) :=
  if ns == "" && name == "inst" then some readTimeGo
  else if ns == "" && name == "uuid" then some readUUIDGo
  else none

/-! ## Collection building (pure parts of `readMap`, `readSet`) -/

/-- Insertion into a Go `map[interface{}]interface{}` association list:
replace the value at an existing key (compared by Go interface equality,
`beqValue` — so freshly allocated big-integer/ratio keys never match),
else append.  Go's map is unordered; the embedding fixes first-insertion
order, which is irrelevant to equality of concretely decoded values. -/
def mapInsert : List (Value × Value) → Value → Value → List (Value × Value)
  | [], k, v => [(k, v)]
  | (k0, v0) :: rest, k, v =>
    if beqValue k0 k then (k0, v) :: rest
    else (k0, v0) :: mapInsert rest k v

/-- The pairing loop of `readMap`: consecutive elements become key/value
associations, last value winning on duplicate keys. -/
def pairUp : List Value → List (Value × Value) → List (Value × Value)
  | k :: v :: rest, acc => pairUp rest (mapInsert acc k v)
  | _, acc => acc

/-- The arity check and pairing of `readMap` (after the delimited list has
been read): an odd element count is an error. -/
def mapFromElems (es : List Value) : Except ReadErr Value :=
  if es.length % 2 != 0 then .error .mapOdd
  else .ok (.map (pairUp es []))

/-- Insertion into a Go `map[interface{}]bool` used as a set: duplicates
by Go interface equality (`beqValue`) collapse — which, for big-integer
and ratio elements, freshly allocated at each parse, they never do. -/
def setInsert (l : List Value) (v : Value) : List Value :=
  if l.any (fun x => beqValue x v) then l else l ++ [v]

/-- The set-building loop of `readSet`. -/
def setFromElems (es : List Value) : Value :=
  .set (es.foldl setInsert [])

/-- The whitespace-skipping loop at the head of `ReadValue`: starting from
an already-read byte, keep reading while it is whitespace; EOF inside the
loop is the wrapped error `"whitespace: EOF"`, not the distinct `io.EOF`. -/
def skipWsGo (c : Char) (l : List Char) : Except ReadErr (Char × List Char) :=
  if isWs c then
    match l with
    | [] => .error .wsEof
    | c2 :: l2 => skipWsGo c2 l2
  else .ok (c, l)

/-- The whitespace-skipping loop of `readDelimitedList`, whose EOF wraps
as `"readVector: whitespace: EOF"`. -/
def skipWsVec (c : Char) (l : List Char) : Except ReadErr (Char × List Char) :=
  if isWs c then
    match l with
    | [] => .error .vecWsEof
    | c2 :: l2 => skipWsVec c2 l2
  else .ok (c, l)

/-! ## The mutually recursive reader

`ReadValue`, the macro handlers and the delimited-list reader recurse into
one another through the macro and dispatch tables; the `fuel` parameter
makes the descent structurally recursive.  Every function consumes one
unit of fuel at entry and hands the predecessor to each callee; general
theorems quantify over the fuel, and the entry points supply a fuel bound
that is ample for the input length. -/

mutual

/-- `ReadValue` from reader.go: skip whitespace (EOF at the very start is
the distinct `io.EOF`; EOF while skipping is a wrapped error), then
dispatch on a digit (number), a macro byte (handler, looping when the
handler produced no value — comments and discards), a sign followed by a
digit (number), or fall through to the token reader. -/
def readValueF : Nat → List Char → Except ReadErr (Value × List Char)
  | 0, _ => .error .outOfFuel
  | fuel + 1, l =>
    match l with
    | [] => .error .eof
    | c :: r =>
      match skipWsGo c r with
      | .error e => .error e
      | .ok (ch, rest) =>
        if isDigitB ch then readNumberGo ch rest
        else
          match handlerFor ch with
          | some k =>
            match runHandler fuel ch k rest with
            | .error e => .error (.handlerErr ch e)
            | .ok (none, rest2) => readValueF fuel rest2
            | .ok (some v, rest2) => .ok (v, rest2)
          | none =>
            if ch == '+' || ch == '-' then
              match rest with
              | [] => .error .eof
              | c2 :: _ =>
                if isDigitB c2 then readNumberGo ch rest
                else
                  match readTokenGo ch rest with
                  | .error e => .error e
                  | .ok (tok, rest2) => (interpretToken tok).map fun v => (v, rest2)
            else
              match readTokenGo ch rest with
              | .error e => .error e
              | .ok (tok, rest2) => (interpretToken tok).map fun v => (v, rest2)

/-- One entry of the `macros` table, invoked on the byte `ch`. -/
def runHandler : Nat → Char → HandlerKind → List Char → Except ReadErr (Option Value × List Char)
  | 0, _, _, _ => .error .outOfFuel
  | fuel + 1, ch, k, l =>
    match k with
    | .vec => (readDelimitedF fuel ']' [] l).map fun (es, r) => (some (.vec es), r)
    | .list => (readDelimitedF fuel ')' [] l).map fun (es, r) => (some (.list es), r)
    | .mapK =>
      match readDelimitedF fuel '}' [] l with
      | .error e => .error e
      | .ok (es, r) => (mapFromElems es).map fun v => (some v, r)
    | .strK => (readStringGo l).map fun (v, r) => (some v, r)
    | .comment => readCommentGo l
    | .dispatchK => readDispatchF fuel l
    | .unmatched => .error (.unmatchedDelim ch)
    | .notImpl => .error (.notImplementedFor ch)

/-- `readDelimitedList` from reader.go: skip whitespace (with the reader's
own EOF wrappings), stop at the delimiter, otherwise read one element via
the macro table or the top-level reader, appending it unless the handler
produced no value. -/
def readDelimitedF : Nat → Char → List Value → List Char → Except ReadErr (List Value × List Char)
  | 0, _, _, _ => .error .outOfFuel
  | fuel + 1, delim, acc, l =>
    match l with
    | [] => .error .eofVector
    | c :: r =>
      match skipWsVec c r with
      | .error e => .error e
      | .ok (ch, rest) =>
        if ch == delim then .ok (acc, rest)
        else
          match handlerFor ch with
          | some k =>
            match runHandler fuel ch k rest with
            | .error e => .error e
            | .ok (none, rest2) => readDelimitedF fuel delim acc rest2
            | .ok (some v, rest2) => readDelimitedF fuel delim (acc ++ [v]) rest2
          | none =>
            match readValueF fuel (ch :: rest) with
            | .error e => .error e
            | .ok (v, rest2) => readDelimitedF fuel delim (acc ++ [v]) rest2

/-- `readDispatch` from reader.go: read the byte after `#`; a dispatch
table entry handles it (`{` set, `_` discard, `^`/`<` not implemented),
otherwise the byte is pushed back and a tagged value is read. -/
def readDispatchF : Nat → List Char → Except ReadErr (Option Value × List Char)
  | 0, _ => .error .outOfFuel
  | fuel + 1, l =>
    match l with
    | [] => .error .eofDispatch
    | c :: r =>
      match dispatchFor c with
      | some .setK => (readDelimitedF fuel '}' [] r).map fun (es, r2) => (some (setFromElems es), r2)
      | some .discard => readDiscardF fuel r
      | some .notImpl => .error (.notImplementedFor c)
      | none => (readTaggedF fuel (c :: r)).map fun (v, r2) => (some v, r2)

/-- `readDiscard` from reader.go: read and drop one value, producing no
value. -/
def readDiscardF : Nat → List Char → Except ReadErr (Option Value × List Char)
  | 0, _ => .error .outOfFuel
  | fuel + 1, l =>
    match readValueF fuel l with
    | .error e => .error e
    | .ok (_, r) => .ok (none, r)

/-- `readTagged` from reader.go: read the tag (which must decode to a
symbol), read the payload, then consult the registry; an unregistered tag
wraps tag and payload in a `Tagged` value. -/
def readTaggedF : Nat → List Char → Except ReadErr (Value × List Char)
  | 0, _ => .error .outOfFuel
  | fuel + 1, l =>
    match readValueF fuel l with
    | .error .eof => .error .eofReaderTag
    | .error e => .error e
    | .ok (tv, r) =>
      match tv with
      | .sym ns name =>
        match readValueF fuel r with
        | .error .eof => .error .eofTaggedValue
        | .error e => .error e
        | .ok (obj, r2) =>
          match taggedFor ns name with
          | none => .ok (.tagged ns name obj, r2)
          | some f => (f obj).map fun v => (v, r2)
      | _ => .error .tagNotSymbol

end

/-! ## Entry points -/

/-- Fuel that is ample for an input of this length (embedding artifact;
the Go code recurses unboundedly). -/
def fuelFor (l : List Char) : Nat := 4 * l.length + 16

/-- `ReadValue` from reader.go, on a list-backed byte source. -/
def ReadValueGo (l : List Char) : Except ReadErr (Value × List Char) :=
  readValueF (fuelFor l) l

/-- `DecodeString` from reader.go: read the first value from a string. -/
def DecodeStringGo (s : String) : Except ReadErr Value :=
  (ReadValueGo s.toList).map Prod.fst

/-- The loop of `ReadAllValues` from reader.go: read values until the
distinct `io.EOF` signal, which means success; any other error aborts. -/
def readAllValuesF : Nat → List Char → Except ReadErr (List Value)
  | 0, _ => .error .outOfFuel
  | fuel + 1, l =>
    match ReadValueGo l with
    | .error .eof => .ok []
    | .error e => .error e
    | .ok (v, r) => (readAllValuesF fuel r).map fun vs => v :: vs

/-- `ReadAllValues` from reader.go. -/
def ReadAllValuesGo (s : String) : Except ReadErr (List Value) :=
  readAllValuesF (s.toList.length + 2) s.toList

/-! ## Claims -/

/-- C1: reading a `#tag value` form whose tag decodes to a symbol with no
registry entry succeeds and wraps the tag and the unchanged payload in a
`Tagged` value — decoding never fails solely because the tag is
unregistered; in particular `"#my/tag 42"` decodes to
`Tagged{my/tag, 42}`. -/
theorem c1_unregistered_tag_preserved :
    (∀ fuel l ns name l1 v l2,
      readValueF fuel l = .ok (.sym ns name, l1) →
      taggedFor ns name = none →
      readValueF fuel l1 = .ok (v, l2) →
      readTaggedF (fuel + 1) l = .ok (.tagged ns name v, l2))
    ∧ DecodeStringGo "#my/tag 42" = .ok (.tagged "my" "tag" (.int 42)) := by
  refine ⟨?_, rfl⟩
  intro fuel l ns name l1 v l2 h1 h2 h3
  simp [readTaggedF, h1, h2, h3]

/-- Witness for C1: the general statement applied to the components of
`"#my/tag 42"`. -/
theorem c1_witness :
    readTaggedF 11 "my/tag 42".toList = .ok (.tagged "my" "tag" (.int 42), []) :=
  c1_unregistered_tag_preserved.1 10 "my/tag 42".toList "my" "tag"
    (' ' :: "42".toList) (.int 42) [] rfl rfl rfl

/-- C3: the number reader classifies the complete token by the integer,
float and ratio grammars in that order, and yields the spec's values:
`"0"` → integer 0, `"0N"` → big integer 0, `"0xff"` → 255, `"2r1111"` →
15, `"3.1415"` → the float literal 3.1415 (the embedding carries the exact
decimal value that `strconv.ParseFloat` rounds to the nearest double),
`"3/45"` → the exact rational 3/45, and `"0.2352M"` → the
arbitrary-precision-floats-not-implemented error.  The token `"12"`
matches both the integer and the float grammar, and the integer grammar
wins, exhibiting the try order. -/
theorem c3_number_classification :
    DecodeStringGo "0" = .ok (.int 0)
    ∧ DecodeStringGo "0N" = .ok (.bigint 0)
    ∧ DecodeStringGo "0xff" = .ok (.int 255)
    ∧ DecodeStringGo "2r1111" = .ok (.int 15)
    ∧ DecodeStringGo "3.1415" = .ok (.float (mkRat 31415 10000))
    ∧ DecodeStringGo "3/45" = .ok (.ratio (mkRat 3 45))
    ∧ DecodeStringGo "0.2352M" = .error .arbPrecFloat
    ∧ matchNumber "12".toList = .ok (.int 12)
    ∧ (matchFloatPattern "12".toList).isSome = true :=
  ⟨rfl, rfl, rfl, rfl, rfl, rfl, rfl, rfl, rfl⟩

/-- C4 (the code at the claim's failing input): every escape except the
backspace escape translates as the spec's table states; the letter-`b`
escape, however, hits the `case '\b':` arm slip in the Go source (it
matches the raw backspace byte 0x08 instead of the letter `b`), so
`"a\bc"` errors with an unsupported-escape error instead of producing
0x08, while a raw 0x08 byte after the backslash is (pointlessly)
accepted. -/
theorem c4_backspace_escape :
    DecodeStringGo "\"a\\tb\"" = .ok (.str "a\tb")
    ∧ DecodeStringGo "\"a\\rb\"" = .ok (.str ⟨['a', cr, 'b']⟩)
    ∧ DecodeStringGo "\"a\\nb\"" = .ok (.str "a\nb")
    ∧ DecodeStringGo "\"a\\fb\"" = .ok (.str ⟨['a', ff, 'b']⟩)
    ∧ DecodeStringGo "\"a\\\\b\"" = .ok (.str ⟨['a', bs, 'b']⟩)
    ∧ DecodeStringGo "\"a\\\"b\"" = .ok (.str ⟨['a', dq, 'b']⟩)
    ∧ DecodeStringGo "\"a\\bc\"" = .error (.handlerErr dq (.badEscape 'b'))
    ∧ DecodeStringGo ⟨[dq, bs, bsp, dq]⟩ = .ok (.str ⟨[bsp]⟩) :=
  ⟨rfl, rfl, rfl, rfl, rfl, rfl, rfl, rfl⟩

/-- C8: comments and discard forms consume input but contribute no value,
at top level and inside collections. -/
theorem c8_comment_discard :
    ReadAllValuesGo "#_ 42 7" = .ok [.int 7]
    ∧ DecodeStringGo ";comment\n42" = .ok (.int 42)
    ∧ DecodeStringGo "[1 #_2 3]" = .ok (.vec [.int 1, .int 3])
    ∧ DecodeStringGo "[1 ;comment\n 3]" = .ok (.vec [.int 1, .int 3]) :=
  ⟨rfl, rfl, rfl, rfl⟩

/-- C2 counterexample: on the input `" "` — zero values surrounded by
whitespace, a well-formed sequence by the claim — `ReadAllValues` does not
succeed: the EOF hit inside the whitespace-skipping loop is wrapped as
`"whitespace: EOF"` and is therefore not recognized as the clean `io.EOF`
stop signal. -/
theorem c2_counterexample : ReadAllValuesGo " " = .error .wsEof := rfl

/-- C2 as amended: `ReadAllValues` returns the values in input order and
treats end-of-input as success provided the input does not end in
whitespace after the last value; an input that ends in (or consists only
of) whitespace fails with the wrapped `"whitespace: EOF"` error instead.
The single-value entry point signals the distinct `io.EOF` when no bytes
remain at the very start of a read. -/
theorem c2_read_all_values :
    ReadAllValuesGo "1 2,3\n4" = .ok [.int 1, .int 2, .int 3, .int 4]
    ∧ ReadAllValuesGo "" = .ok []
    ∧ (∀ fuel, readValueF (fuel + 1) [] = .error .eof)
    ∧ ReadValueGo [] = .error .eof
    ∧ ReadAllValuesGo "7 " = .error .wsEof :=
  ⟨rfl, rfl, fun _ => rfl, rfl, rfl⟩

/-- C5 counterexample: a 36-character string with `*` at all four
separator positions — a deviation the claim says must be a decode error —
is accepted by the `#uuid` decoder, because `readUUID` drops the bytes at
indices 8, 13, 18 and 23 without checking them against `-`. -/
theorem c5_counterexample :
    readUUIDGo (.str "f81d4fae*7dec*11d0*a765*00a0c91e6bf6")
      = .ok (.uuid 0xf81d4fae7dec11d0 0xa76500a0c91e6bf6) := rfl

/-- C5 as amended: the `#uuid` decode succeeds exactly when the string has
length 36 and the 32 characters outside the separator positions (indices
8, 13, 18, 23) are hexadecimal digits; the separator positions themselves
are dropped unchecked.  Wrong length and non-hex content are decode
errors, and the canonical example yields the claimed 64-bit halves. -/
theorem c5_uuid :
    DecodeStringGo "#uuid \"f81d4fae-7dec-11d0-a765-00a0c91e6bf6\""
      = .ok (.uuid 0xf81d4fae7dec11d0 0xa76500a0c91e6bf6)
    ∧ readUUIDGo (.str "f81d4fae-7dec-11d0") = .error .uuidLength
    ∧ readUUIDGo (.str "g81d4fae-7dec-11d0-a765-00a0c91e6bf6") = .error .uuidHex
    ∧ (∀ d : List Char,
        (readUUIDGo (.str ⟨d⟩)).isOk
          = (d.length == 36
              && (hexNat? ((uuidHexChars d).take 16)).isSome
              && (hexNat? ((uuidHexChars d).drop 16)).isSome)) := by
  refine ⟨rfl, rfl, rfl, ?_⟩
  intro d
  show (if d.length != 36 then Except.error ReadErr.uuidLength
      else
        match hexNat? ((uuidHexChars d).take 16), hexNat? ((uuidHexChars d).drop 16) with
        | some msb, some lsb => Except.ok (Value.uuid msb lsb)
        | _, _ => Except.error ReadErr.uuidHex).isOk
    = (d.length == 36
        && (hexNat? ((uuidHexChars d).take 16)).isSome
        && (hexNat? ((uuidHexChars d).drop 16)).isSome)
  by_cases h : d.length = 36
  · simp only [h]
    cases hm : hexNat? ((uuidHexChars d).take 16) with
    | none => simp [hm, Except.isOk, Except.toBool]
    | some msb =>
      cases hl : hexNat? ((uuidHexChars d).drop 16) with
      | none => simp [hm, hl, Except.isOk, Except.toBool]
      | some lsb => simp [hm, hl, Except.isOk, Except.toBool]
  · simp [h, Except.isOk, Except.toBool]

/-- C6 counterexample: the claim says every radix between 2 and 36 with a
trailing `N` parses to a big integer (e.g. `"3r12N"` to 5), but the
arbitrary-precision branch only knows a prefix spelling for bases 2, 8, 10
and 16 and rejects every other radix. -/
theorem c6_counterexample : matchNumber "3r12N".toList = .error .bigIntBase := rfl

/-- C6 as amended: a radix literal with a trailing `N` parses to a big
integer of the same value only when the radix is 2, 8, 10 or 16; any other
radix in 2–36 with `N` fails with the base-not-supported error (without
`N` it parses fine), and radix values outside 2–36 are errors. -/
theorem c6_radix_bigint :
    (∀ s m r d, matchIntPattern s = some m → m.alt = .radix r d → m.big = true →
        atoiRadix r ∉ ([2, 8, 10, 16] : List Nat) →
        matchNumber s = .error .bigIntBase)
    ∧ matchNumber "2r1111N".toList = .ok (.bigint 15)
    ∧ matchNumber "16rffN".toList = .ok (.bigint 255)
    ∧ matchNumber "2r1111".toList = .ok (.int 15)
    ∧ matchNumber "3r12".toList = .ok (.int 5)
    ∧ matchNumber "37r1".toList = .error .parseIntErr
    ∧ matchNumber "1r1".toList = .error .parseIntErr := by
  refine ⟨?_, rfl, rfl, rfl, rfl, rfl, rfl⟩
  intro s m r d h1 h2 h3 h4
  simp only [List.mem_cons, List.not_mem_nil, or_false, not_or] at h4
  obtain ⟨n2, n8, n10, n16⟩ := h4
  simp [matchNumber, h1, h2, h3, bigIntBranch, Nat.ne_of_gt, n2, n8, n10, n16]

/-- Witness for C6's general part: radix 5 with `N` fails. -/
theorem c6_witness : matchNumber "5r6N".toList = .error .bigIntBase :=
  c6_radix_bigint.1 "5r6N".toList ⟨false, .radix ['5'] ['6'], true⟩ ['5'] ['6']
    rfl rfl rfl (by decide)

/-- C7 counterexample: the claim says the last value wins whenever the
same key *by value equality* appears twice, but the reader allocates a
fresh `*big.Int` for every parsed `N` literal and Go map keys of that
type compare by pointer, so `"{0N 1 0N 2}"` decodes to a TWO-entry map:
the value-equal duplicate key does not collapse and the first value
survives alongside the second. -/
theorem c7_counterexample :
    DecodeStringGo "{0N 1 0N 2}"
      = .ok (.map [(.bigint 0, .int 1), (.bigint 0, .int 2)]) := rfl

/-- C7 as amended: the map builder fails with the odd-arity error exactly
when the element count is odd (`"{:a}"` errors); with an even count it
pairs consecutive elements, and on duplicate keys the last value wins
only under Go's interface equality — value equality for keywords and the
other Go value types, but pointer identity for the freshly allocated
big-integer and ratio values, whose numerically equal duplicates remain
separate entries. -/
theorem c7_map_builder :
    DecodeStringGo "{:a}" = .error (.handlerErr '{' .mapOdd)
    ∧ DecodeStringGo "{:a 1 :b 2}" = .ok (.map [(.kw "" "a", .int 1), (.kw "" "b", .int 2)])
    ∧ DecodeStringGo "{:a 1 :a 2}" = .ok (.map [(.kw "" "a", .int 2)])
    ∧ DecodeStringGo "{1/2 1 1/2 2}"
        = .ok (.map [(.ratio (mkRat 1 2), .int 1), (.ratio (mkRat 1 2), .int 2)])
    ∧ (∀ es : List Value, mapFromElems es = .error .mapOdd ↔ es.length % 2 = 1) := by
  refine ⟨rfl, rfl, rfl, rfl, ?_⟩
  intro es
  rcases Nat.mod_two_eq_zero_or_one es.length with h | h <;> simp [mapFromElems, h]

/-- C9 counterexample: the token `"a/b/c"` contains two unescaped `/` yet
is not rejected — the interpreter produces a symbol whose namespace
`"a/b"` itself contains a `/`, violating the claimed identifier grammar. -/
theorem c9_counterexample : interpretToken "a/b/c".toList = .ok (.sym "a/b" "c") := rfl

/-- C9 as amended: a token may contain several `/`; everything before the
last `/` becomes the namespace (which may itself contain `/`), the name
part is slash-free, and a bare `/` is a valid name.  The `::` rejections
stand: a namespace ending in `:` is rejected, and any token containing
`::` is an invalid-token error (proved in general). -/
theorem c9_symbol_grammar :
    DecodeStringGo "/" = .ok (.sym "" "/")
    ∧ DecodeStringGo ":x/y/z" = .ok (.kw "x/y" "z")
    ∧ DecodeStringGo "a:/b" = .error (.invalidToken "a:/b")
    ∧ DecodeStringGo "::a" = .error (.invalidToken "::a")
    ∧ (∀ s, hasCC s = true → interpretToken s = .error (.invalidToken ⟨s⟩)) := by
  refine ⟨rfl, rfl, rfl, rfl, ?_⟩
  intro s h
  have hnil : s ≠ ['n', 'i', 'l'] := fun he => absurd (he ▸ h) (by decide)
  have htrue : s ≠ ['t', 'r', 'u', 'e'] := fun he => absurd (he ▸ h) (by decide)
  have hfalse : s ≠ ['f', 'a', 'l', 's', 'e'] := fun he => absurd (he ▸ h) (by decide)
  simp [interpretToken, hnil, htrue, hfalse, matchSymbol, h]

/-- Witness for C9's general part: a token containing `::` is rejected. -/
theorem c9_witness : interpretToken "x::y".toList = .error (.invalidToken "x::y") :=
  c9_symbol_grammar.2.2.2.2 "x::y".toList rfl

/-- Skipping a run of whitespace characters lands on the first
non-whitespace character. -/
theorem skipWsGo_run (ws : List Char) :
    ∀ w c rest, (∀ x ∈ ws, isWs x = true) → isWs w = true → isWs c = false →
      skipWsGo w (ws ++ c :: rest) = .ok (c, rest) := by
  induction ws with
  | nil =>
    intro w c rest _ hw hc
    simp only [List.nil_append]
    rw [skipWsGo.eq_def, if_pos hw]
    show skipWsGo c rest = _
    rw [skipWsGo.eq_def, if_neg (by simp [hc])]
  | cons y ys ih =>
    intro w c rest hws hw hc
    have hy : isWs y = true := hws y (by simp)
    have hys : ∀ x ∈ ys, isWs x = true := fun x hx => hws x (by simp [hx])
    simp only [List.cons_append]
    rw [skipWsGo.eq_def, if_pos hw]
    exact ih y c rest hys hy hc

/-- C10: a value whose first non-whitespace byte is `\` (character
literal) or `^` (metadata), or a `#` dispatch followed by `^` or `<`,
always fails with the not-implemented error installed for those bytes in
the macro and dispatch tables — such forms never decode to a value. -/
theorem c10_not_implemented :
    (∀ fuel ws rest, (∀ x ∈ ws, isWs x = true) →
        readValueF (fuel + 2) (ws ++ bs :: rest)
          = .error (.handlerErr bs (.notImplementedFor bs)))
    ∧ (∀ fuel ws rest, (∀ x ∈ ws, isWs x = true) →
        readValueF (fuel + 2) (ws ++ '^' :: rest)
          = .error (.handlerErr '^' (.notImplementedFor '^')))
    ∧ (∀ fuel ws rest, (∀ x ∈ ws, isWs x = true) →
        readValueF (fuel + 3) (ws ++ '#' :: '^' :: rest)
          = .error (.handlerErr '#' (.notImplementedFor '^')))
    ∧ (∀ fuel ws rest, (∀ x ∈ ws, isWs x = true) →
        readValueF (fuel + 3) (ws ++ '#' :: '<' :: rest)
          = .error (.handlerErr '#' (.notImplementedFor '<'))) := by
  refine ⟨?_, ?_, ?_, ?_⟩
  · intro fuel ws rest hws
    cases ws with
    | nil =>
      have hs : skipWsGo bs rest = .ok (bs, rest) := by
        rw [skipWsGo.eq_def, if_neg (by decide)]
      simp only [List.nil_append]
      rw [readValueF, hs]
      rfl
    | cons y ys =>
      have hy : isWs y = true := hws y (by simp)
      have hys : ∀ x ∈ ys, isWs x = true := fun x hx => hws x (by simp [hx])
      have hs := skipWsGo_run ys y bs rest hys hy (by decide)
      simp only [List.cons_append]
      rw [readValueF, hs]
      rfl
  · intro fuel ws rest hws
    cases ws with
    | nil =>
      have hs : skipWsGo '^' rest = .ok ('^', rest) := by
        rw [skipWsGo.eq_def, if_neg (by decide)]
      simp only [List.nil_append]
      rw [readValueF, hs]
      rfl
    | cons y ys =>
      have hy : isWs y = true := hws y (by simp)
      have hys : ∀ x ∈ ys, isWs x = true := fun x hx => hws x (by simp [hx])
      have hs := skipWsGo_run ys y '^' rest hys hy (by decide)
      simp only [List.cons_append]
      rw [readValueF, hs]
      rfl
  · intro fuel ws rest hws
    cases ws with
    | nil =>
      have hs : skipWsGo '#' ('^' :: rest) = .ok ('#', '^' :: rest) := by
        rw [skipWsGo.eq_def, if_neg (by decide)]
      simp only [List.nil_append]
      rw [readValueF, hs]
      rfl
    | cons y ys =>
      have hy : isWs y = true := hws y (by simp)
      have hys : ∀ x ∈ ys, isWs x = true := fun x hx => hws x (by simp [hx])
      have hs := skipWsGo_run ys y '#' ('^' :: rest) hys hy (by decide)
      simp only [List.cons_append]
      rw [readValueF, hs]
      rfl
  · intro fuel ws rest hws
    cases ws with
    | nil =>
      have hs : skipWsGo '#' ('<' :: rest) = .ok ('#', '<' :: rest) := by
        rw [skipWsGo.eq_def, if_neg (by decide)]
      simp only [List.nil_append]
      rw [readValueF, hs]
      rfl
    | cons y ys =>
      have hy : isWs y = true := hws y (by simp)
      have hys : ∀ x ∈ ys, isWs x = true := fun x hx => hws x (by simp [hx])
      have hs := skipWsGo_run ys y '#' ('<' :: rest) hys hy (by decide)
      simp only [List.cons_append]
      rw [readValueF, hs]
      rfl

/-- Witness for C10: a lone backslash after a space fails as not
implemented. -/
theorem c10_witness :
    readValueF 2 (' ' :: bs :: []) = .error (.handlerErr bs (.notImplementedFor bs)) :=
  c10_not_implemented.1 0 [' '] [] (by decide)

end Edn
